import Mathlib

/-! Verification of pipewire/client/log.c: a shallow embedding of the
process-wide logging facility — level-filtered synchronous output plus the
asynchronous trace ring buffer with its consumer and loop-attachment
lifecycle — together with theorems about the claims of the specification. -/

set_option linter.unusedVariables false

/-- Modulus of the 32-bit unsigned cursor arithmetic used by the ring buffer. -/
def u32Mod : Nat := 4294967296

/-- Reinterpretation of an unsigned 32-bit value as a signed 32-bit integer,
as done by the C casts of uint32_t cursor differences to int32_t. -/
def toInt32 (n : Nat) : Int :=
  if n % u32Mod < 2147483648 then (n % u32Mod : Int) else (n % u32Mod : Int) - (u32Mod : Int)

/-- Byte memory indexed by physical offset. The trace ring storage and the
stack formatting buffers are modelled as functions from offsets to bytes;
bytes are represented as characters, the log lines being text. -/
def Mem : Type := Nat → Char

/-- Copy of a byte sequence into memory (memcpy): positions
[dst, dst + src.length) take the source bytes, all others are unchanged. -/
def memWrite (m : Mem) (dst : Nat) (src : List Char) : Mem :=
  fun i => if dst ≤ i ∧ i < dst + src.length then src.getD (i - dst) (Char.ofNat 0) else m i

/-- Modelled from the spec (§3, §4.1): the `spa_ringbuffer` struct of
spa/ringbuffer.h (not under src/): a fixed power-of-two `size`,
`mask = size - 1`, and free-running 32-bit read/write cursors whose
difference is the unread byte count. -/
structure SpaRingbuffer where
  readindex : Nat
  writeindex : Nat
  size : Nat
  mask : Nat
deriving DecidableEq

/-- Modelled from the spec (§4.1): `spa_ringbuffer_get_write_index` returns
the current write cursor (its fill-level return value is unused by log.c). -/
def spa_ringbuffer_get_write_index (rb : SpaRingbuffer) : Nat := rb.writeindex

/-- Modelled from the spec (§4.1): `spa_ringbuffer_write_data` copies the data
into the storage at the given physical offset, splitting the copy in two
pieces when it straddles the end of the storage. It does not move the write
cursor. -/
def spa_ringbuffer_write_data (rb : SpaRingbuffer) (buffer : Mem) (offset : Nat)
    (d : List Char) : Mem :=
  if rb.size < offset + d.length then
    memWrite (memWrite buffer offset (d.take (rb.size - offset))) 0 (d.drop (rb.size - offset))
  else
    memWrite buffer offset d

/-- Modelled from the spec (§4.1): `spa_ringbuffer_write_update` publishes a
new write cursor (a 32-bit store). -/
def spa_ringbuffer_write_update (rb : SpaRingbuffer) (index : Nat) : SpaRingbuffer :=
  { rb with writeindex := index % u32Mod }

/-- Modelled from the spec (§4.1): `spa_ringbuffer_get_read_index` yields the
read cursor together with the signed 32-bit unread byte count
`writeindex - readindex`. -/
def spa_ringbuffer_get_read_index (rb : SpaRingbuffer) : Nat × Int :=
  (rb.readindex, toInt32 (rb.writeindex + (u32Mod - rb.readindex % u32Mod)))

/-- Modelled from the spec (§4.1): `spa_ringbuffer_read_update` stores a new
read cursor (a 32-bit store). -/
def spa_ringbuffer_read_update (rb : SpaRingbuffer) (index : Nat) : SpaRingbuffer :=
  { rb with readindex := index % u32Mod }

/-- Unread byte count of the ring, as computed by
spa_ringbuffer_get_read_index. -/
def availOf (rb : SpaRingbuffer) : Int := (spa_ringbuffer_get_read_index rb).2

/-- The `debug_log` state of log.c: the spa_log level field, the trace ring
buffer with its storage, and the wakeup-source bookkeeping (`have_source`,
the eventfd descriptor and the loop the source is registered with). -/
structure DebugLog where
  level : Nat
  trace_rb : SpaRingbuffer
  trace_data : Mem
  have_source : Bool
  source_fd : Int
  source_loop : Option Nat

/-- Observable output of one producer-side call: the strings handed to
`fputs(..., stdout)` and the number of eventfd wakeup writes performed. -/
structure Output where
  stdout : List (List Char)
  signals : Nat
deriving DecidableEq

/-- Output of a call that prints nothing and signals nothing. -/
def emptyOutput : Output := { stdout := [], signals := 0 }

/-- The static `levels` label array of do_logv. -/
def levels : List (List Char) :=
  ["-".data, "E".data, "W".data, "I".data, "D".data, "T".data, "*T*".data]

/-- Suffix of the file name after its last slash, the string printed through
`strrchr(file, slash) + 1`; `none` models `strrchr` returning NULL (no slash
present), in which case the `+ 1` and the subsequent read are undefined
behavior. -/
def afterLastSlash : List Char → Option (List Char)
  | [] => none
  | c :: cs =>
    match afterLastSlash cs with
    | some r => some r
    | none => if c = '/' then some cs else none

/-- Decimal rendering of an integer, as printf %i renders the line number. -/
def intChars (i : Int) : List Char :=
  if i < 0 then '-' :: Nat.toDigits 10 i.natAbs else Nat.toDigits 10 i.natAbs

/-- The full rendered line for the format "[%s][%s:%i %s()] %s\n" before any
truncation by the 1024-byte location buffer. -/
def fullLine (label base : List Char) (line : Int) (func text : List Char) : List Char :=
  '[' :: (label ++ ']' :: '[' ::
    (base ++ ':' :: (intChars line ++ ' ' :: (func ++ '(' :: ')' :: ']' :: ' ' ::
      (text ++ ['\n'])))))

/-- Placeholder for an indeterminate byte read out of bounds. -/
def oobByte : Char := Char.ofNat 0

/-- The bytes read back from the 1024-byte `location` stack buffer when the
snprintf would-be length `full.length` bytes are consumed from it: snprintf
stores at most 1023 characters plus a NUL terminator, so any bytes past the
terminator are indeterminate out-of-bounds stack data. -/
def locationBytes (full : List Char) : List Char :=
  if full.length ≤ 1023 then full
  else full.take 1023 ++ oobByte :: List.replicate (full.length - 1024) oobByte

/-- The do_logv method of log.c: vsnprintf caps the message text at 1023
characters; a trace-level record with an armed source takes the ring path
(with label index level + 1); snprintf renders the location line and returns
the untruncated would-be length as `size`; the ring path appends `size`
bytes at the physical offset `writeindex &&& mask`, publishes
`writeindex + size` and raises the eventfd once, while every other call
writes the (truncated) line synchronously to stdout. The result is `none`
when `file` contains no slash: `strrchr` yields NULL there and `NULL + 1`
is undefined behavior. -/
def do_logv (l : DebugLog) (level : Nat) (file : List Char) (line : Int)
    (func msg : List Char) : Option (DebugLog × Output) :=
  let text := msg.take 1023
  let do_trace := level == 5 && l.have_source
  let level1 := if do_trace then level + 1 else level
  match afterLastSlash file with
  | none => none
  | some base =>
    let full := fullLine (levels.getD level1 []) base line func text
    let size := full.length
    if do_trace then
      let index := spa_ringbuffer_get_write_index l.trace_rb
      let data1 := spa_ringbuffer_write_data l.trace_rb l.trace_data
        (index &&& l.trace_rb.mask) (locationBytes full)
      let rb1 := spa_ringbuffer_write_update l.trace_rb (index + size)
      some ({ l with trace_rb := rb1, trace_data := data1 },
            { stdout := [], signals := 1 })
    else
      some (l, { stdout := [full.take 1023], signals := 0 })

/-- The rendered line as it reaches stdout on the synchronous path (truncated
to the 1023 characters the location buffer can hold). -/
def renderedLine (level : Nat) (file : List Char) (line : Int)
    (func msg : List Char) : List Char :=
  (fullLine (levels.getD level []) ((afterLastSlash file).getD []) line func
    (msg.take 1023)).take 1023

/-- Consumer-side stderr observables: the overflow report (carrying the
printed avail value), a drained chunk written with fwrite, or the eventfd
read-failure report. -/
inductive TraceOut where
  | overflowReport (avail : Int)
  | chunk (bytes : List Char)
  | readFdError
deriving DecidableEq

/-- Bytes at `len` consecutive physical offsets starting at `off`, as fwrite
reads them from the storage. -/
def readChunk (m : Mem) (off len : Nat) : List Char :=
  (List.range len).map (fun i => m (off + i))

/-- One body execution of the drain loop of on_trace_event: on overflow
report the avail value and resynchronize the read index, then emit the
contiguous run and, when the data wraps, the remainder from the start of the
storage, and advance the read cursor by avail. -/
def drainIter (l : DebugLog) : DebugLog × List TraceOut :=
  let rb := l.trace_rb
  let p := spa_ringbuffer_get_read_index rb
  let adj :=
    if (rb.size : Int) < p.2 then
      ((p.1 + (p.2 - (rb.size : Int)).toNat) % u32Mod, (rb.size : Int),
       [TraceOut.overflowReport p.2])
    else (p.1, p.2, ([] : List TraceOut))
  let index := adj.1
  let avail := adj.2.1
  let offset := index &&& rb.mask
  let first := min avail.toNat (rb.size - offset)
  let outs := adj.2.2 ++ TraceOut.chunk (readChunk l.trace_data offset first) ::
    (if (first : Int) < avail then
      [TraceOut.chunk (readChunk l.trace_data 0 (avail.toNat - first))] else [])
  ({ l with trace_rb := spa_ringbuffer_read_update rb (index + avail.toNat) }, outs)

/-- The while loop of on_trace_event with an explicit iteration budget: the
body runs while the unread count is positive. The C loop is unbounded;
the termination theorem shows any budget of at least one iteration yields
the final state, so the budget is a faithful rendering. -/
def drainLoop : Nat → DebugLog → DebugLog × List TraceOut
  | 0, l => (l, [])
  | Nat.succ n, l =>
    if 0 < availOf l.trace_rb then
      let s1 := drainIter l
      let s2 := drainLoop n s1.1
      (s2.1, s1.2 ++ s2.2)
    else (l, [])

/-- The on_trace_event handler: consume the eventfd (reporting a failed read
to stderr, and still draining afterwards), then run the drain loop. -/
def on_trace_event (l : DebugLog) (readOk : Bool) (fuel : Nat) : DebugLog × List TraceOut :=
  let pre := if readOk then ([] : List TraceOut) else [TraceOut.readFdError]
  let r := drainLoop fuel l
  (r.1, pre ++ r.2)

/-- External-collaborator actions performed by do_set_loop: unregistering the
source from a loop, closing the eventfd, registering the source with a loop. -/
inductive LoopAction where
  | removeSource (loop : Option Nat)
  | closeFd (fd : Int)
  | addSource (loop : Nat)
deriving DecidableEq

/-- The do_set_loop method: when a source is active, unregister it from its
loop, close its descriptor and clear have_source; then, when a new loop is
supplied, create a fresh eventfd (`fdRes` models the descriptor value the OS
returns, -1 on failure — the code does not check it), register the source
with the new loop and set have_source. -/
def do_set_loop (l : DebugLog) (loop : Option Nat) (fdRes : Int) :
    DebugLog × List LoopAction :=
  let d :=
    if l.have_source then
      ({ l with have_source := false },
       [LoopAction.removeSource l.source_loop, LoopAction.closeFd l.source_fd])
    else (l, ([] : List LoopAction))
  match loop with
  | some lp =>
    ({ d.1 with source_fd := fdRes, source_loop := some lp, have_source := true },
     d.2 ++ [LoopAction.addSource lp])
  | none => d

/-- Process-wide logging state: the pw_log_level global plus the debug_log
singleton named `log` in the source. -/
structure PwLogState where
  pw_log_level : Nat
  log : DebugLog

/-- The static initial state of log.c: default level ERROR (= 1) in both the
global and the embedded spa_log, a ring of size TRACE_BUFFER = 16384 with
mask 16383, zeroed cursors and storage, and no source. -/
def initialState : PwLogState :=
  { pw_log_level := 1
  , log :=
    { level := 1
    , trace_rb := { readindex := 0, writeindex := 0, size := 16384, mask := 16383 }
    , trace_data := fun _ => Char.ofNat 0
    , have_source := false
    , source_fd := 0
    , source_loop := none } }

/-- The pw_log_set_level operation: stores the level into both copies. -/
def pw_log_set_level (s : PwLogState) (lvl : Nat) : PwLogState :=
  { pw_log_level := lvl, log := { s.log with level := lvl } }

/-- Modelled from the spec (§4.6): the pw_log_level_enabled filter of
pipewire/client/log.h (not under src/): a call is emitted only when its
level is at or below (at least as severe as) the current threshold. -/
def pw_log_level_enabled (s : PwLogState) (level : Nat) : Bool :=
  level ≤ s.pw_log_level

/-- The pw_log_log entry point: filter on the level, then delegate to
do_logv on the singleton. -/
def pw_log_log (s : PwLogState) (level : Nat) (file : List Char) (line : Int)
    (func msg : List Char) : Option (PwLogState × Output) :=
  if pw_log_level_enabled s level then
    match do_logv s.log level file line func msg with
    | none => none
    | some r => some ({ s with log := r.1 }, r.2)
  else some (s, emptyOutput)

/-- The pw_log_logv entry point: the va_list variant, same behavior. -/
def pw_log_logv (s : PwLogState) (level : Nat) (file : List Char) (line : Int)
    (func msg : List Char) : Option (PwLogState × Output) :=
  if pw_log_level_enabled s level then
    match do_logv s.log level file line func msg with
    | none => none
    | some r => some ({ s with log := r.1 }, r.2)
  else some (s, emptyOutput)

/-- The pw_log_set_loop entry point delegates to do_set_loop. -/
def pw_log_set_loop (s : PwLogState) (loop : Option Nat) (fdRes : Int) :
    PwLogState × List LoopAction :=
  let r := do_set_loop s.log loop fdRes
  ({ s with log := r.1 }, r.2)

/-- One public operation on the facility state (outputs discarded), used to
state state-machine invariants over every reachable mutation. -/
inductive Op where
  | setLevel (lvl : Nat)
  | setLoop (loop : Option Nat) (fdRes : Int)
  | logCall (level : Nat) (file : List Char) (line : Int) (func msg : List Char)
  | logCallV (level : Nat) (file : List Char) (line : Int) (func msg : List Char)
  | traceEvent (readOk : Bool) (fuel : Nat)

/-- The state transition performed by one public operation. -/
def step (op : Op) (s : PwLogState) : PwLogState :=
  match op with
  | Op.setLevel lvl => pw_log_set_level s lvl
  | Op.setLoop lp fd => (pw_log_set_loop s lp fd).1
  | Op.logCall lv f ln fn m =>
    match pw_log_log s lv f ln fn m with
    | some r => r.1
    | none => s
  | Op.logCallV lv f ln fn m =>
    match pw_log_logv s lv f ln fn m with
    | some r => r.1
    | none => s
  | Op.traceEvent ok fuel => { s with log := (on_trace_event s.log ok fuel).1 }

/-- The producer-side ring append performed by the trace branch of do_logv:
write the bytes at the physical offset `writeindex &&& mask`, then publish
`writeindex + length`. -/
def traceAppend (st : SpaRingbuffer × Mem) (bytes : List Char) : SpaRingbuffer × Mem :=
  let index := spa_ringbuffer_get_write_index st.1
  let m1 := spa_ringbuffer_write_data st.1 st.2 (index &&& st.1.mask) bytes
  (spa_ringbuffer_write_update st.1 (index + bytes.length), m1)

/-- A sequence of trace records appended through the producer path. -/
def traceAppendMany (st : SpaRingbuffer × Mem) (records : List (List Char)) :
    SpaRingbuffer × Mem :=
  records.foldl traceAppend st

/-- Concatenation of the bytes a consumer-output sequence hands to the
diagnostic sink, in emission order. -/
def traceBytes : List TraceOut → List Char
  | [] => []
  | TraceOut.chunk b :: rest => b ++ traceBytes rest
  | _ :: rest => traceBytes rest

theorem afterLastSlash_eq_none (file : List Char) :
    afterLastSlash file = none ↔ '/' ∉ file := by
  induction file with
  | nil => simp [afterLastSlash]
  | cons c cs ih =>
    simp only [afterLastSlash]
    cases h : afterLastSlash cs with
    | some r =>
      have hin : '/' ∈ cs := by
        by_contra hn
        rw [ih.mpr hn] at h
        exact Option.noConfusion h
      simp [List.mem_cons, hin]
    | none =>
      by_cases hc : c = '/'
      · simp [hc]
      · have hns : '/' ∉ cs := ih.mp h
        simp [List.mem_cons, hns, eq_comm, hc]

/-- C10: every emitting call has the unstated precondition that the file name
contains a slash: do_logv models `strrchr(file, slash) + 1` and is undefined
(returns none) exactly when the file name has no slash character. -/
theorem c10_do_logv_requires_slash (l : DebugLog) (level : Nat) (file : List Char)
    (line : Int) (func msg : List Char) :
    do_logv l level file line func msg = none ↔ '/' ∉ file := by
  rw [← afterLastSlash_eq_none]
  unfold do_logv
  cases h : afterLastSlash file with
  | none => simp
  | some base =>
    simp only [h]
    split <;> simp

/-- C3: evaluating do_set_loop at the failing input — attaching from the
detached state while eventfd fails (returns -1) — shows the code does NOT
remain detached: it stores the invalid descriptor, registers the source with
the loop and sets have_source, contradicting the claimed fail-safe. -/
theorem c3_eventfd_failure_still_arms :
    (do_set_loop initialState.log (some 1) (-1)).1.have_source = true ∧
    (do_set_loop initialState.log (some 1) (-1)).1.source_fd = -1 ∧
    (do_set_loop initialState.log (some 1) (-1)).2 = [LoopAction.addSource 1] :=
  ⟨rfl, rfl, rfl⟩

/-- C8: the loop-attachment state machine: a null loop while detached is a
strict no-op, and a non-null loop while attached first performs the full
detach (unregister from the old loop, close the descriptor) before
registering with the new loop, so the source is never registered with two
loops at once. -/
theorem c8_set_loop_state_machine (l : DebugLog) (lp : Nat) (fdRes : Int) :
    (l.have_source = false → do_set_loop l none fdRes = (l, [])) ∧
    (l.have_source = true →
      (do_set_loop l (some lp) fdRes).2 =
        [LoopAction.removeSource l.source_loop, LoopAction.closeFd l.source_fd,
         LoopAction.addSource lp] ∧
      (do_set_loop l (some lp) fdRes).1.have_source = true ∧
      (do_set_loop l (some lp) fdRes).1.source_loop = some lp) := by
  constructor
  · intro h
    simp [do_set_loop, h]
  · intro h
    simp [do_set_loop, h]

/-- Sample detached debug_log state used as a concrete witness input. -/
def sampleDetached : DebugLog := initialState.log

/-- Sample attached debug_log state used as a concrete witness input. -/
def sampleAttached : DebugLog :=
  { initialState.log with have_source := true, source_fd := 7, source_loop := some 3 }

theorem c8_set_loop_state_machine_witness :
    do_set_loop sampleDetached none 0 = (sampleDetached, []) ∧
    ((do_set_loop sampleAttached (some 4) 9).2 =
      [LoopAction.removeSource (some 3), LoopAction.closeFd 7, LoopAction.addSource 4] ∧
     (do_set_loop sampleAttached (some 4) 9).1.have_source = true ∧
     (do_set_loop sampleAttached (some 4) 9).1.source_loop = some 4) :=
  ⟨(c8_set_loop_state_machine sampleDetached 4 0).1 rfl,
   (c8_set_loop_state_machine sampleAttached 4 9).2 rfl⟩

theorem do_set_loop_level (l : DebugLog) (loop : Option Nat) (fdRes : Int) :
    (do_set_loop l loop fdRes).1.level = l.level := by
  cases loop <;> by_cases h : l.have_source = true <;> simp [do_set_loop, h]

theorem do_logv_level (l : DebugLog) (level : Nat) (file : List Char) (line : Int)
    (func msg : List Char) (r : DebugLog × Output)
    (h : do_logv l level file line func msg = some r) : r.1.level = l.level := by
  unfold do_logv at h
  cases hf : afterLastSlash file with
  | none => rw [hf] at h; exact Option.noConfusion h
  | some base =>
    rw [hf] at h
    by_cases hb : (level == 5 && l.have_source) = true <;>
      simp [hb] at h <;> rw [← h]

theorem drainIter_level (l : DebugLog) : (drainIter l).1.level = l.level := rfl

theorem drainLoop_level (fuel : Nat) (l : DebugLog) :
    (drainLoop fuel l).1.level = l.level := by
  induction fuel generalizing l with
  | zero => rfl
  | succ n ih =>
    simp only [drainLoop]
    split
    · rw [ih]
      exact drainIter_level _
    · rfl

theorem pw_log_logv_eq_pw_log_log : pw_log_logv = pw_log_log := rfl

theorem pw_log_log_level (s : PwLogState) (lv : Nat) (f : List Char) (ln : Int)
    (fn m : List Char) (r : PwLogState × Output)
    (h : pw_log_log s lv f ln fn m = some r) :
    r.1.pw_log_level = s.pw_log_level ∧ r.1.log.level = s.log.level := by
  unfold pw_log_log at h
  by_cases he : pw_log_level_enabled s lv = true
  · rw [if_pos he] at h
    cases hv : do_logv s.log lv f ln fn m with
    | none => rw [hv] at h; exact Option.noConfusion h
    | some q =>
      rw [hv] at h
      cases h
      exact ⟨rfl, do_logv_level s.log lv f ln fn m q hv⟩
  · rw [if_neg he] at h
    cases h
    exact ⟨rfl, rfl⟩

/-- C9: the two copies of the current level — the pw_log_level global and the
level field of the embedded spa_log — agree in the initial state and after
every public operation, pw_log_set_level being the only mutator and storing
the same value into both. -/
theorem c9_level_copies_agree :
    initialState.pw_log_level = initialState.log.level ∧
    ∀ (op : Op) (s : PwLogState), s.pw_log_level = s.log.level →
      (step op s).pw_log_level = (step op s).log.level := by
  refine ⟨rfl, ?_⟩
  intro op s h
  cases op with
  | setLevel lvl => rfl
  | setLoop lp fd =>
    simp only [step, pw_log_set_loop]
    rw [do_set_loop_level]
    exact h
  | logCall lv f ln fn m =>
    cases hq : pw_log_log s lv f ln fn m with
    | none => simpa [step, hq] using h
    | some r =>
      have hl := pw_log_log_level s lv f ln fn m r hq
      simp only [step, hq]
      rw [hl.1, hl.2]
      exact h
  | logCallV lv f ln fn m =>
    cases hq : pw_log_log s lv f ln fn m with
    | none =>
      simp only [step, pw_log_logv_eq_pw_log_log, hq]
      exact h
    | some r =>
      have hl := pw_log_log_level s lv f ln fn m r hq
      simp only [step, pw_log_logv_eq_pw_log_log, hq]
      rw [hl.1, hl.2]
      exact h
  | traceEvent ok fuel =>
    simp only [step, on_trace_event]
    rw [drainLoop_level]
    exact h

theorem c9_level_copies_agree_witness :
    (step (Op.setLevel 3) initialState).pw_log_level =
      (step (Op.setLevel 3) initialState).log.level :=
  c9_level_copies_agree.2 (Op.setLevel 3) initialState rfl

/-- C4: the level filter: a call whose level is strictly more verbose than
the threshold returns with no output and no state change; a non-trace call
at or below the threshold writes exactly one rendered line synchronously to
stdout before returning, with no other effect. -/
theorem c4_level_filter (s : PwLogState) (level : Nat) (file : List Char)
    (line : Int) (func msg : List Char) :
    (s.pw_log_level < level →
      pw_log_log s level file line func msg = some (s, emptyOutput) ∧
      pw_log_logv s level file line func msg = some (s, emptyOutput)) ∧
    (level ≤ 4 → level ≤ s.pw_log_level → '/' ∈ file →
      pw_log_log s level file line func msg =
        some (s, { stdout := [renderedLine level file line func msg], signals := 0 }) ∧
      pw_log_logv s level file line func msg =
        some (s, { stdout := [renderedLine level file line func msg], signals := 0 })) := by
  constructor
  · intro hgt
    have he : pw_log_level_enabled s level = false := by
      simp only [pw_log_level_enabled, decide_eq_false_iff_not]
      omega
    constructor <;> simp [pw_log_log, pw_log_logv, he, emptyOutput]
  · intro h4 hle hf
    obtain ⟨base, hb⟩ : ∃ b, afterLastSlash file = some b := by
      cases hfa : afterLastSlash file with
      | none => exact absurd ((afterLastSlash_eq_none file).mp hfa) (by simpa using hf)
      | some b => exact ⟨b, rfl⟩
    have he : pw_log_level_enabled s level = true := by
      simp only [pw_log_level_enabled, decide_eq_true_eq]
      exact hle
    have hb5 : (level == 5 && s.log.have_source) = false := by
      have h5 : (level == 5) = false := beq_eq_false_iff_ne.mpr (by omega)
      simp [h5]
    constructor <;>
      simp [pw_log_log, pw_log_logv, do_logv, hb, hb5, he, renderedLine]

theorem c4_level_filter_witness :
    (pw_log_log initialState 2 ("/a/b.c".data) 10 ("f".data) ("m".data) =
       some (initialState, emptyOutput) ∧
     pw_log_logv initialState 2 ("/a/b.c".data) 10 ("f".data) ("m".data) =
       some (initialState, emptyOutput)) ∧
    (pw_log_log initialState 1 ("/a/b.c".data) 10 ("f".data) ("m".data) =
       some (initialState,
         { stdout := [renderedLine 1 ("/a/b.c".data) 10 ("f".data) ("m".data)],
           signals := 0 }) ∧
     pw_log_logv initialState 1 ("/a/b.c".data) 10 ("f".data) ("m".data) =
       some (initialState,
         { stdout := [renderedLine 1 ("/a/b.c".data) 10 ("f".data) ("m".data)],
           signals := 0 })) :=
  ⟨(c4_level_filter initialState 2 ("/a/b.c".data) 10 ("f".data) ("m".data)).1
     (by decide),
   (c4_level_filter initialState 1 ("/a/b.c".data) 10 ("f".data) ("m".data)).2
     (by decide) (by decide) (by decide)⟩

/-- C1 counterexample: with the threshold raised to trace and no loop
attached, a trace-level call does produce output — exactly one line reaches
stdout — refuting that such a call produces no output at all. -/
theorem c1_counterexample_unarmed_trace_prints :
    (pw_log_set_level initialState 5).log.have_source = false ∧
    (pw_log_log (pw_log_set_level initialState 5) 5 ("/f.c".data) 1 ("g".data)
       ("hi".data)).map (fun r => r.2.stdout.length) = some 1 :=
  ⟨rfl, rfl⟩

/-- C1 (amended): a trace-level call while not armed never touches the ring
buffer, never raises the wakeup signal and leaves the whole state unchanged,
but it is not dropped outright: when the threshold admits trace level the
rendered line is written synchronously to stdout; only the level filter
makes it silent. -/
theorem c1_unarmed_trace_sync_fallback (s : PwLogState) (file : List Char)
    (line : Int) (func msg : List Char)
    (hsrc : s.log.have_source = false) (hf : '/' ∈ file) :
    (5 ≤ s.pw_log_level →
      pw_log_log s 5 file line func msg =
        some (s, { stdout := [renderedLine 5 file line func msg], signals := 0 })) ∧
    (s.pw_log_level < 5 →
      pw_log_log s 5 file line func msg = some (s, emptyOutput)) := by
  obtain ⟨base, hb⟩ : ∃ b, afterLastSlash file = some b := by
    cases hfa : afterLastSlash file with
    | none => exact absurd ((afterLastSlash_eq_none file).mp hfa) (by simpa using hf)
    | some b => exact ⟨b, rfl⟩
  have hb5 : ((5 : Nat) == 5 && s.log.have_source) = false := by simp [hsrc]
  constructor
  · intro hle
    have he : pw_log_level_enabled s 5 = true := by
      simp only [pw_log_level_enabled, decide_eq_true_eq]
      exact hle
    simp [pw_log_log, do_logv, hb, hb5, he, hsrc, renderedLine]
  · intro hgt
    have he : pw_log_level_enabled s 5 = false := by
      simp only [pw_log_level_enabled, decide_eq_false_iff_not]
      omega
    simp [pw_log_log, he, emptyOutput]

theorem c1_unarmed_trace_sync_fallback_witness :
    pw_log_log (pw_log_set_level initialState 5) 5 ("/f.c".data) 1 ("g".data)
      ("m".data) =
      some (pw_log_set_level initialState 5,
        { stdout := [renderedLine 5 ("/f.c".data) 1 ("g".data) ("m".data)],
          signals := 0 }) :=
  (c1_unarmed_trace_sync_fallback (pw_log_set_level initialState 5) ("/f.c".data)
    1 ("g".data) ("m".data) rfl (by decide)).1 (by decide)

theorem toInt32_pos (x : Nat) (h : 0 < toInt32 x) :
    toInt32 x = ((x % u32Mod : Nat) : Int) ∧ x % u32Mod < 2147483648 := by
  have hx : x % u32Mod < u32Mod := Nat.mod_lt x (by unfold u32Mod; omega)
  unfold toInt32 at *
  by_cases hc : x % u32Mod < 2147483648
  · rw [if_pos hc] at *
    exact ⟨by norm_cast, hc⟩
  · rw [if_neg hc] at h
    exfalso
    have hcast : ((x : Int) % (u32Mod : Int)) = ((x % u32Mod : Nat) : Int) := by norm_cast
    rw [hcast] at h
    unfold u32Mod at *
    omega

theorem land_16383 (n : Nat) : n &&& 16383 = n % 16384 := by
  have h := Nat.and_pow_two_sub_one_eq_mod n 14
  norm_num at h
  exact h

theorem drainIter_writeindex (l : DebugLog) :
    (drainIter l).1.trace_rb.writeindex = l.trace_rb.writeindex := by
  simp only [drainIter, spa_ringbuffer_read_update, spa_ringbuffer_get_read_index]

theorem drainIter_size (l : DebugLog) :
    (drainIter l).1.trace_rb.size = l.trace_rb.size := by
  simp only [drainIter, spa_ringbuffer_read_update, spa_ringbuffer_get_read_index]

theorem drainIter_readindex (l : DebugLog)
    (hr : l.trace_rb.readindex < u32Mod) (hw : l.trace_rb.writeindex < u32Mod)
    (hpos : 0 < availOf l.trace_rb) :
    (drainIter l).1.trace_rb.readindex = l.trace_rb.writeindex := by
  obtain ⟨heq, hlt⟩ :=
    toInt32_pos (l.trace_rb.writeindex + (u32Mod - l.trace_rb.readindex % u32Mod)) hpos
  simp only [drainIter, spa_ringbuffer_read_update, spa_ringbuffer_get_read_index]
  split
  · rename_i hov
    rw [heq] at hov
    have h1 : (toInt32 (l.trace_rb.writeindex + (u32Mod - l.trace_rb.readindex % u32Mod)) -
        (l.trace_rb.size : Int)).toNat =
        (l.trace_rb.writeindex + (u32Mod - l.trace_rb.readindex % u32Mod)) % u32Mod -
          l.trace_rb.size := by
      rw [heq]
      omega
    have h2 : l.trace_rb.size <
        (l.trace_rb.writeindex + (u32Mod - l.trace_rb.readindex % u32Mod)) % u32Mod := by
      exact_mod_cast hov
    simp only [h1, Int.toNat_natCast]
    unfold u32Mod at *
    omega
  · rw [heq]
    simp only [Int.toNat_natCast]
    unfold u32Mod at *
    omega

theorem availOf_eq_zero_of_eq (rb : SpaRingbuffer)
    (h : rb.readindex = rb.writeindex) (hw : rb.writeindex < u32Mod) :
    availOf rb = 0 := by
  unfold availOf spa_ringbuffer_get_read_index toInt32
  rw [h]
  have hz : rb.writeindex + (u32Mod - rb.writeindex % u32Mod) = u32Mod := by
    unfold u32Mod at *
    omega
  rw [hz]
  norm_num [u32Mod]

theorem drainLoop_of_avail_nonpos (fuel : Nat) (l : DebugLog)
    (h : ¬ 0 < availOf l.trace_rb) : drainLoop fuel l = (l, []) := by
  cases fuel <;> simp [drainLoop, h]

theorem drainLoop_succ_pos (n : Nat) (l : DebugLog)
    (hpos : 0 < availOf l.trace_rb)
    (hzero : availOf (drainIter l).1.trace_rb = 0) :
    drainLoop (n + 1) l = drainIter l := by
  simp only [drainLoop, if_pos hpos]
  rw [drainLoop_of_avail_nonpos n _ (by rw [hzero]; omega)]
  simp

/-- C5: the drain loop terminates on every state with in-range cursors: a
single body execution already advances the read cursor all the way to the
write cursor, so the loop exits with no unread bytes, and every iteration
budget of at least one yields the same final state and output. -/
theorem c5_drain_loop_terminates (l : DebugLog)
    (hr : l.trace_rb.readindex < u32Mod) (hw : l.trace_rb.writeindex < u32Mod) :
    ∀ fuel, 1 ≤ fuel →
      availOf (drainLoop fuel l).1.trace_rb ≤ 0 ∧
      drainLoop fuel l = drainLoop 1 l := by
  intro fuel hf
  by_cases hpos : 0 < availOf l.trace_rb
  · have hread := drainIter_readindex l hr hw hpos
    have hwrite := drainIter_writeindex l
    have hzero : availOf (drainIter l).1.trace_rb = 0 :=
      availOf_eq_zero_of_eq _ (by rw [hread, hwrite]) (by rw [hwrite]; exact hw)
    obtain ⟨n, rfl⟩ : ∃ n, fuel = n + 1 := ⟨fuel - 1, by omega⟩
    rw [drainLoop_succ_pos n l hpos hzero]
    rw [show (1 : Nat) = 0 + 1 from rfl, drainLoop_succ_pos 0 l hpos hzero]
    exact ⟨by rw [hzero], rfl⟩
  · rw [drainLoop_of_avail_nonpos fuel l hpos, drainLoop_of_avail_nonpos 1 l hpos]
    refine ⟨?_, rfl⟩
    show availOf l.trace_rb ≤ 0
    omega

/-- Sample armed debug_log used as a concrete drain-witness input. -/
def sampleDrain : DebugLog :=
  { level := 1
  , trace_rb := { readindex := 0, writeindex := 3, size := 16384, mask := 16383 }
  , trace_data := fun _ => 'a'
  , have_source := true
  , source_fd := 5
  , source_loop := some 1 }

theorem c5_drain_loop_terminates_witness :
    availOf (drainLoop 2 sampleDrain).1.trace_rb ≤ 0 ∧
    drainLoop 2 sampleDrain = drainLoop 1 sampleDrain :=
  c5_drain_loop_terminates sampleDrain (by decide) (by decide) 2 (by decide)

/-- Sample armed debug_log (loop attached) used as a concrete input. -/
def armedSample : DebugLog :=
  { initialState.log with have_source := true, source_fd := 5, source_loop := some 1 }

set_option maxRecDepth 8000 in
/-- C7: evaluating the trace path at a failing input: a 1023-character
message renders to a 1041-byte line, snprintf truncates the location buffer
to 1023 characters but returns 1041, and the code appends all 1041 bytes —
more than the 1024-byte formatting buffer — to the ring, reading past the
end of the buffer, contradicting the claim that appends never exceed the
maximum rendered line length. -/
theorem c7_overlong_append_exceeds_buffer :
    (do_logv armedSample 5 ("/f.c".data) 1 ("g".data)
      (List.replicate 1023 'a')).map (fun r => r.1.trace_rb.writeindex) =
        some 1041 ∧ 1024 < 1041 := by
  constructor
  · rfl
  · decide

theorem readChunk_join (m : Mem) (off avail : Nat) (hoff : off < 16384)
    (ha : avail ≤ 16384) :
    readChunk m off (min avail (16384 - off)) ++
      readChunk m 0 (avail - min avail (16384 - off)) =
    (List.range avail).map (fun i => m ((off + i) % 16384)) := by
  by_cases hc : avail ≤ 16384 - off
  · rw [min_eq_left hc, Nat.sub_self]
    simp only [readChunk, List.range_zero, List.map_nil, List.append_nil]
    apply List.map_congr_left
    intro i hi
    rw [List.mem_range] at hi
    rw [Nat.mod_eq_of_lt (by omega)]
  · push_neg at hc
    have hmin : min avail (16384 - off) = 16384 - off := min_eq_right (by omega)
    rw [hmin]
    conv_rhs => rw [show avail = (16384 - off) + (avail - (16384 - off)) by omega]
    rw [List.range_add, List.map_append, List.map_map]
    congr 1
    · simp only [readChunk]
      apply List.map_congr_left
      intro i hi
      rw [List.mem_range] at hi
      rw [Nat.mod_eq_of_lt (by omega)]
    · simp only [readChunk]
      apply List.map_congr_left
      intro i hi
      rw [List.mem_range] at hi
      simp only [Function.comp_apply, Nat.zero_add]
      have h1 : off + (16384 - off + i) = 16384 + i := by omega
      rw [h1]
      have h2 : (16384 + i) % 16384 = i % 16384 := by omega
      rw [h2, Nat.mod_eq_of_lt (by omega)]

/-- C6: a non-overflowing drain iteration computes the physical offset
read_cursor &&& mask, emits first = min(avail, capacity - offset) bytes from
that offset, then — only when the data wraps — the remaining avail - first
bytes from the start of the storage, advances the read cursor by avail, and
the concatenated emitted bytes are exactly the unread bytes at logical
positions read_cursor, read_cursor+1, ..., in publication order. -/
theorem c6_drain_iteration_emits_in_order (l : DebugLog)
    (hsz : l.trace_rb.size = 16384) (hm : l.trace_rb.mask = 16383)
    (hr : l.trace_rb.readindex < u32Mod) (hw : l.trace_rb.writeindex < u32Mod)
    (hpos : 0 < availOf l.trace_rb) (hno : availOf l.trace_rb ≤ 16384) :
    (drainIter l).1.trace_rb.readindex =
      (l.trace_rb.readindex + (availOf l.trace_rb).toNat) % u32Mod ∧
    (drainIter l).2 =
      TraceOut.chunk (readChunk l.trace_data (l.trace_rb.readindex % 16384)
        (min (availOf l.trace_rb).toNat (16384 - l.trace_rb.readindex % 16384))) ::
      (if min (availOf l.trace_rb).toNat (16384 - l.trace_rb.readindex % 16384) <
          (availOf l.trace_rb).toNat then
        [TraceOut.chunk (readChunk l.trace_data 0
          ((availOf l.trace_rb).toNat -
            min (availOf l.trace_rb).toNat (16384 - l.trace_rb.readindex % 16384)))]
       else []) ∧
    traceBytes (drainIter l).2 =
      (List.range (availOf l.trace_rb).toNat).map
        (fun i => l.trace_data ((l.trace_rb.readindex + i) % 16384)) := by
  obtain ⟨heq, hlt⟩ :=
    toInt32_pos (l.trace_rb.writeindex + (u32Mod - l.trace_rb.readindex % u32Mod)) hpos
  have havail : availOf l.trace_rb =
      (((l.trace_rb.writeindex + (u32Mod - l.trace_rb.readindex % u32Mod)) % u32Mod : Nat) :
        Int) := heq
  have htoNat : (availOf l.trace_rb).toNat =
      (l.trace_rb.writeindex + (u32Mod - l.trace_rb.readindex % u32Mod)) % u32Mod := by
    rw [havail, Int.toNat_natCast]
  have hA16 : (availOf l.trace_rb).toNat ≤ 16384 := by
    rw [havail] at hno
    rw [htoNat]
    exact_mod_cast hno
  have hApos : 0 < (availOf l.trace_rb).toNat := by
    rw [havail] at hpos
    rw [htoNat]
    exact_mod_cast hpos
  have hnov : ¬ ((l.trace_rb.size : Int) <
      (spa_ringbuffer_get_read_index l.trace_rb).2) := by
    have h1 : (spa_ringbuffer_get_read_index l.trace_rb).2 = availOf l.trace_rb := rfl
    rw [h1, hsz]
    push_cast
    omega
  have hoff : l.trace_rb.readindex % 16384 < 16384 := Nat.mod_lt _ (by norm_num)
  have hIterEq : drainIter l =
      ({ l with trace_rb := (spa_ringbuffer_read_update l.trace_rb
          (l.trace_rb.readindex + (availOf l.trace_rb).toNat)) },
       TraceOut.chunk (readChunk l.trace_data (l.trace_rb.readindex % 16384)
         (min (availOf l.trace_rb).toNat (16384 - l.trace_rb.readindex % 16384))) ::
       (if min (availOf l.trace_rb).toNat (16384 - l.trace_rb.readindex % 16384) <
           (availOf l.trace_rb).toNat then
         [TraceOut.chunk (readChunk l.trace_data 0
           ((availOf l.trace_rb).toNat -
             min (availOf l.trace_rb).toNat (16384 - l.trace_rb.readindex % 16384)))]
        else [])) := by
    simp only [drainIter]
    rw [if_neg hnov]
    have hp1 : (spa_ringbuffer_get_read_index l.trace_rb).1 = l.trace_rb.readindex := rfl
    have hp2 : (spa_ringbuffer_get_read_index l.trace_rb).2 = availOf l.trace_rb := rfl
    have hoffeq : l.trace_rb.readindex &&& l.trace_rb.mask =
        l.trace_rb.readindex % 16384 := by rw [hm, land_16383]
    have hcond : ((((min (availOf l.trace_rb).toNat
        (16384 - l.trace_rb.readindex % 16384)) : Nat) : Int) <
          availOf l.trace_rb) =
        (min (availOf l.trace_rb).toNat (16384 - l.trace_rb.readindex % 16384) <
          (availOf l.trace_rb).toNat) := by
      rw [havail]
      simp [Int.toNat_natCast, Nat.cast_lt]
    simp only [hp1, hp2, hoffeq, hsz, hcond, List.nil_append]
  refine ⟨?_, ?_, ?_⟩
  · rw [hIterEq]
    rfl
  · rw [hIterEq]
  · rw [hIterEq]
    have hjoin := readChunk_join l.trace_data (l.trace_rb.readindex % 16384)
      (availOf l.trace_rb).toNat hoff hA16
    by_cases hfc : min (availOf l.trace_rb).toNat
        (16384 - l.trace_rb.readindex % 16384) < (availOf l.trace_rb).toNat
    · rw [if_pos hfc]
      simp only [traceBytes, List.append_nil]
      rw [hjoin]
      apply List.map_congr_left
      intro i hi
      rw [Nat.mod_add_mod]
    · rw [if_neg hfc]
      simp only [traceBytes, List.append_nil]
      have hmin : min (availOf l.trace_rb).toNat
          (16384 - l.trace_rb.readindex % 16384) = (availOf l.trace_rb).toNat := by
        omega
      rw [hmin] at hjoin
      rw [Nat.sub_self] at hjoin
      simp only [readChunk, List.range_zero, List.map_nil, List.append_nil] at hjoin
      rw [hmin]
      simp only [readChunk]
      rw [hjoin]
      apply List.map_congr_left
      intro i hi
      rw [Nat.mod_add_mod]

/-- Sample armed state whose unread bytes straddle the end of the storage. -/
def sampleWrap : DebugLog :=
  { level := 1
  , trace_rb := { readindex := 16382, writeindex := 16386, size := 16384, mask := 16383 }
  , trace_data := fun i => Char.ofNat (65 + i % 26)
  , have_source := true
  , source_fd := 5
  , source_loop := some 1 }

theorem c6_drain_iteration_emits_in_order_witness :
    (drainIter sampleWrap).1.trace_rb.readindex =
      (sampleWrap.trace_rb.readindex + (availOf sampleWrap.trace_rb).toNat) % u32Mod ∧
    (drainIter sampleWrap).2 =
      TraceOut.chunk (readChunk sampleWrap.trace_data
        (sampleWrap.trace_rb.readindex % 16384)
        (min (availOf sampleWrap.trace_rb).toNat
          (16384 - sampleWrap.trace_rb.readindex % 16384))) ::
      (if min (availOf sampleWrap.trace_rb).toNat
          (16384 - sampleWrap.trace_rb.readindex % 16384) <
          (availOf sampleWrap.trace_rb).toNat then
        [TraceOut.chunk (readChunk sampleWrap.trace_data 0
          ((availOf sampleWrap.trace_rb).toNat -
            min (availOf sampleWrap.trace_rb).toNat
              (16384 - sampleWrap.trace_rb.readindex % 16384)))]
       else []) ∧
    traceBytes (drainIter sampleWrap).2 =
      (List.range (availOf sampleWrap.trace_rb).toNat).map
        (fun i => sampleWrap.trace_data ((sampleWrap.trace_rb.readindex + i) % 16384)) :=
  c6_drain_iteration_emits_in_order sampleWrap rfl rfl (by decide) (by decide)
    (by decide) (by decide)

theorem memWrite_in (m : Mem) (dst : Nat) (src : List Char) (i : Nat)
    (h1 : dst ≤ i) (h2 : i < dst + src.length) :
    memWrite m dst src i = src.getD (i - dst) (Char.ofNat 0) := by
  simp [memWrite, h1, h2]

theorem memWrite_out (m : Mem) (dst : Nat) (src : List Char) (i : Nat)
    (h : i < dst ∨ dst + src.length ≤ i) :
    memWrite m dst src i = m i := by
  have hn : ¬ (dst ≤ i ∧ i < dst + src.length) := by omega
  simp [memWrite, hn]

theorem write_data_at (rb : SpaRingbuffer) (m : Mem) (T : Nat) (b : List Char)
    (hsz : rb.size = 16384) (hlen : b.length ≤ 16384) :
    (∀ j, j < b.length →
      spa_ringbuffer_write_data rb m (T % 16384) b ((T + j) % 16384) =
        b.getD j (Char.ofNat 0)) ∧
    (∀ q, q < 16384 → (∀ j, j < b.length → (T + j) % 16384 ≠ q) →
      spa_ringbuffer_write_data rb m (T % 16384) b q = m q) := by
  have hoff : T % 16384 < 16384 := Nat.mod_lt _ (by norm_num)
  unfold spa_ringbuffer_write_data
  rw [hsz]
  by_cases hc : 16384 < T % 16384 + b.length
  · rw [if_pos hc]
    have hf : (b.take (16384 - T % 16384)).length = 16384 - T % 16384 := by
      rw [List.length_take]
      omega
    have hd : (b.drop (16384 - T % 16384)).length = b.length - (16384 - T % 16384) := by
      rw [List.length_drop]
    constructor
    · intro j hj
      by_cases hjf : j < 16384 - T % 16384
      · have hidx : (T + j) % 16384 = T % 16384 + j := by omega
        rw [hidx]
        rw [memWrite_out _ 0 _ _ (Or.inr (by rw [hd]; omega))]
        rw [memWrite_in _ _ _ _ (by omega) (by rw [hf]; omega)]
        rw [Nat.add_sub_cancel_left]
        rw [List.getD_eq_getElem?_getD, List.getD_eq_getElem?_getD,
          List.getElem?_take_of_lt hjf]
      · push_neg at hjf
        have hidx : (T + j) % 16384 = j - (16384 - T % 16384) := by omega
        rw [hidx]
        rw [memWrite_in _ 0 _ _ (Nat.zero_le _) (by rw [hd]; omega)]
        have hjeq : (16384 - T % 16384) + (j - (16384 - T % 16384)) = j := by omega
        rw [Nat.sub_zero]
        rw [List.getD_eq_getElem?_getD, List.getD_eq_getElem?_getD,
          List.getElem?_drop, hjeq]
    · intro q hq hmiss
      have houter : q < 0 ∨ 0 + (b.drop (16384 - T % 16384)).length ≤ q := by
        rw [hd]
        right
        by_contra hcon
        push_neg at hcon
        exact hmiss (q + (16384 - T % 16384)) (by omega) (by omega)
      rw [memWrite_out _ 0 _ _ houter]
      have hinner : q < T % 16384 ∨ T % 16384 + (b.take (16384 - T % 16384)).length ≤ q := by
        rw [hf]
        by_cases hqo : q < T % 16384
        · exact Or.inl hqo
        · push_neg at hqo
          exfalso
          exact hmiss (q - T % 16384) (by omega) (by omega)
      rw [memWrite_out _ _ _ _ hinner]
  · rw [if_neg hc]
    push_neg at hc
    constructor
    · intro j hj
      have hidx : (T + j) % 16384 = T % 16384 + j := by omega
      rw [hidx]
      rw [memWrite_in _ _ _ _ (by omega) (by omega)]
      rw [Nat.add_sub_cancel_left]
    · intro q hq hmiss
      apply memWrite_out
      by_contra hcon
      push_neg at hcon
      exact hmiss (q - T % 16384) (by omega) (by omega)

theorem traceAppendMany_spec (records : List (List Char)) :
    ∀ (rb : SpaRingbuffer) (m : Mem) (base : List Char),
    rb.size = 16384 → rb.mask = 16383 → rb.writeindex = base.length →
    base.length + (records.flatten).length < 2147483648 →
    (∀ r, r ∈ records → r.length ≤ 16384) →
    (∀ p, p < base.length → base.length ≤ p + 16384 →
      m (p % 16384) = base.getD p (Char.ofNat 0)) →
    (traceAppendMany (rb, m) records).1 =
      { rb with writeindex := base.length + (records.flatten).length } ∧
    (∀ p, p < base.length + (records.flatten).length →
        base.length + (records.flatten).length ≤ p + 16384 →
      (traceAppendMany (rb, m) records).2 (p % 16384) =
        (base ++ records.flatten).getD p (Char.ofNat 0)) := by
  induction records with
  | nil =>
    intro rb m base hsz hm hw hb hrec hmem
    simp only [traceAppendMany, List.foldl_nil, List.flatten_nil, List.length_nil,
      Nat.add_zero, List.append_nil]
    exact ⟨by rw [← hw], hmem⟩
  | cons b rs ih =>
    intro rb m base hsz hm hw hb hrec hmem
    have hjoin : ((b :: rs).flatten).length = b.length + (rs.flatten).length := by
      simp [List.flatten_cons]
    have hblen : b.length ≤ 16384 := hrec b (List.mem_cons_self b rs)
    have hstep : traceAppend (rb, m) b =
        ({ rb with writeindex := base.length + b.length },
         spa_ringbuffer_write_data rb m (base.length % 16384) b) := by
      unfold traceAppend spa_ringbuffer_get_write_index spa_ringbuffer_write_update
      simp only [hw, hm, land_16383]
      have hmod : (base.length + b.length) % u32Mod = base.length + b.length := by
        apply Nat.mod_eq_of_lt
        unfold u32Mod
        omega
      rw [hmod]
    have hunfold : traceAppendMany (rb, m) (b :: rs) =
        traceAppendMany (traceAppend (rb, m) b) rs := by
      simp [traceAppendMany, List.foldl_cons]
    obtain ⟨wIn, wOut⟩ := write_data_at rb m base.length b hsz hblen
    have hmemNew : ∀ p, p < (base ++ b).length → (base ++ b).length ≤ p + 16384 →
        spa_ringbuffer_write_data rb m (base.length % 16384) b (p % 16384) =
          (base ++ b).getD p (Char.ofNat 0) := by
      intro p hp1 hp2
      rw [List.length_append] at hp1 hp2
      by_cases hpb : base.length ≤ p
      · have hj : p - base.length < b.length := by omega
        have hval := wIn (p - base.length) hj
        have hTj : base.length + (p - base.length) = p := by omega
        rw [hTj] at hval
        rw [hval]
        rw [List.getD_eq_getElem?_getD, List.getD_eq_getElem?_getD,
          List.getElem?_append_right hpb]
      · push_neg at hpb
        have hq : p % 16384 < 16384 := Nat.mod_lt _ (by norm_num)
        have hmiss : ∀ j, j < b.length → (base.length + j) % 16384 ≠ p % 16384 := by
          intro j hj hcon
          omega
        rw [wOut (p % 16384) hq hmiss]
        rw [hmem p hpb (by omega)]
        rw [List.getD_eq_getElem?_getD, List.getD_eq_getElem?_getD,
          List.getElem?_append_left hpb]
    obtain ⟨ihA, ihB⟩ := ih { rb with writeindex := base.length + b.length }
      (spa_ringbuffer_write_data rb m (base.length % 16384) b) (base ++ b)
      hsz hm (by simp [List.length_append])
      (by rw [List.length_append]; omega)
      (fun r hr => hrec r (List.mem_cons_of_mem _ hr))
      hmemNew
    rw [hunfold, hstep]
    constructor
    · rw [ihA]
      rw [List.length_append]
      rw [hjoin]
      congr 1
      omega
    · intro p hp1 hp2
      rw [hjoin] at hp1 hp2
      have := ihB p (by rw [List.length_append]; omega)
        (by rw [List.length_append]; omega)
      rw [this]
      rw [List.append_assoc]
      rw [List.flatten_cons]

theorem availOf_read_zero (rb : SpaRingbuffer) (hr0 : rb.readindex = 0)
    (hw : rb.writeindex < 2147483648) :
    availOf rb = (rb.writeindex : Int) := by
  unfold availOf spa_ringbuffer_get_read_index toInt32
  rw [hr0]
  have h1 : (rb.writeindex + (u32Mod - 0 % u32Mod)) % u32Mod = rb.writeindex := by
    unfold u32Mod
    omega
  have h2 : ((rb.writeindex + (u32Mod - 0 % u32Mod) : Nat) : Int) %
      ((u32Mod : Nat) : Int) = (rb.writeindex : Int) := by
    rw [← Int.natCast_mod, h1]
  simp only [h1, h2]
  rw [if_pos hw]

/-- One overflowing drain iteration from a never-drained state: report the
full unread count, resynchronize to write - capacity, emit the last capacity
bytes in two physical chunks, and advance the read cursor to the write
cursor. -/
theorem drainIter_overflow (l : DebugLog)
    (hsz : l.trace_rb.size = 16384) (hm : l.trace_rb.mask = 16383)
    (hr0 : l.trace_rb.readindex = 0)
    (hw : l.trace_rb.writeindex < 2147483648)
    (hov : 16384 < l.trace_rb.writeindex) :
    drainIter l =
      ({ l with trace_rb := (spa_ringbuffer_read_update l.trace_rb
          l.trace_rb.writeindex) },
       TraceOut.overflowReport (l.trace_rb.writeindex : Int) ::
       TraceOut.chunk (readChunk l.trace_data
         ((l.trace_rb.writeindex - 16384) % 16384)
         (min 16384 (16384 - (l.trace_rb.writeindex - 16384) % 16384))) ::
       (if min 16384 (16384 - (l.trace_rb.writeindex - 16384) % 16384) < 16384 then
         [TraceOut.chunk (readChunk l.trace_data 0
           (16384 - min 16384 (16384 - (l.trace_rb.writeindex - 16384) % 16384)))]
        else [])) := by
  have havail : (spa_ringbuffer_get_read_index l.trace_rb).2 =
      (l.trace_rb.writeindex : Int) := availOf_read_zero l.trace_rb hr0 hw
  have hp1 : (spa_ringbuffer_get_read_index l.trace_rb).1 = l.trace_rb.readindex := rfl
  have hovInt : (l.trace_rb.size : Int) < (spa_ringbuffer_get_read_index l.trace_rb).2 := by
    rw [havail, hsz]
    exact_mod_cast hov
  simp only [drainIter]
  rw [if_pos hovInt]
  have hsub : ((spa_ringbuffer_get_read_index l.trace_rb).2 -
      (l.trace_rb.size : Int)).toNat = l.trace_rb.writeindex - 16384 := by
    rw [havail, hsz]
    omega
  have hidx : ((spa_ringbuffer_get_read_index l.trace_rb).1 +
      ((spa_ringbuffer_get_read_index l.trace_rb).2 -
        (l.trace_rb.size : Int)).toNat) % u32Mod =
      (l.trace_rb.writeindex - 16384) % 16384 + 16384 * ((l.trace_rb.writeindex - 16384) / 16384) := by
    rw [hsub, hp1, hr0]
    unfold u32Mod
    omega
  have hidx2 : ((spa_ringbuffer_get_read_index l.trace_rb).1 +
      ((spa_ringbuffer_get_read_index l.trace_rb).2 -
        (l.trace_rb.size : Int)).toNat) % u32Mod =
      l.trace_rb.writeindex - 16384 := by
    rw [hsub, hp1, hr0]
    unfold u32Mod
    omega
  have hmask : (l.trace_rb.writeindex - 16384) &&& l.trace_rb.mask =
      (l.trace_rb.writeindex - 16384) % 16384 := by
    rw [hm, land_16383]
  have hfirstNat : ((l.trace_rb.size : Int)).toNat = 16384 := by
    rw [hsz]
    rfl
  have hread : (l.trace_rb.writeindex - 16384 + ((l.trace_rb.size : Int)).toNat) % u32Mod =
      l.trace_rb.writeindex % u32Mod := by
    rw [hfirstNat]
    unfold u32Mod
    omega
  simp only [hidx2]
  simp only [hmask]
  simp only [hfirstNat]
  simp only [havail]
  have hszInt : (l.trace_rb.size : Int) = ((16384 : Nat) : Int) := by rw [hsz]
  simp only [hszInt, Nat.cast_lt]
  have hplus : l.trace_rb.writeindex - 16384 + 16384 = l.trace_rb.writeindex := by
    omega
  simp only [hplus]
  simp only [spa_ringbuffer_read_update, List.singleton_append]
  simp only [hsz]

theorem map_getD_range_eq_drop (l : List Char) (k n : Nat) (h : k + n = l.length) :
    (List.range n).map (fun i => l.getD (k + i) (Char.ofNat 0)) = l.drop k := by
  apply List.ext_getElem
  · simp
    omega
  · intro i h1 h2
    simp only [List.getElem_map, List.getElem_range]
    have hki : k + i < l.length := by
      simp only [List.length_map, List.length_range] at h1
      omega
    rw [List.getD_eq_getElem?_getD, List.getElem?_eq_getElem hki]
    simp only [Option.getD_some]
    rw [List.getElem_drop]

/-- The ring buffer and storage after appending a sequence of trace records
to the freshly initialized ring. -/
def ringAfter (records : List (List Char)) (m : Mem) : SpaRingbuffer × Mem :=
  traceAppendMany
    ({ readindex := 0, writeindex := 0, size := 16384, mask := 16383 }, m) records

/-- An armed debug_log whose ring holds the given record sequence, nothing
drained yet. -/
def stateAfter (records : List (List Char)) (m : Mem) : DebugLog :=
  { level := 1
  , trace_rb := (ringAfter records m).1
  , trace_data := (ringAfter records m).2
  , have_source := true
  , source_fd := 5
  , source_loop := some 1 }

/-- C2 counterexample: in a drain-loop state whose unread count avail = 16484
exceeds the capacity 16384, the code prints 16484 — the unread byte count
avail — as the overflow report, not avail - capacity = 100 as the claim
states. -/
theorem c2_counterexample_report_value :
    (drainLoop 2
      { level := 1
      , trace_rb := { readindex := 0, writeindex := 16484, size := 16384, mask := 16383 }
      , trace_data := fun _ => 'a'
      , have_source := true
      , source_fd := 5
      , source_loop := some 1 }).2.head? =
      some (TraceOut.overflowReport 16484) ∧ (16484 : Int) ≠ 16484 - 16384 := by
  constructor
  · rfl
  · decide

/-- C2 (amended): for every sequence of trace records, each at most the
capacity, whose total size exceeds the capacity before any drain, the drain
loop reports one overflow whose printed byte count is the unread count
avail = total_written (the code prints avail itself, not the bytes lost
avail - capacity), resynchronizes the read cursor, and emits exactly the
last capacity bytes written, intact and in order, ending with the read
cursor at the write cursor. -/
theorem c2_overflow_drain (records : List (List Char)) (m : Mem)
    (hrec : ∀ r, r ∈ records → r.length ≤ 16384)
    (htot : 16384 < (records.flatten).length)
    (hbound : (records.flatten).length < 2147483648) :
    (drainLoop 2 (stateAfter records m)).2.head? =
      some (TraceOut.overflowReport ((records.flatten).length : Int)) ∧
    traceBytes (drainLoop 2 (stateAfter records m)).2 =
      (records.flatten).drop ((records.flatten).length - 16384) ∧
    (drainLoop 2 (stateAfter records m)).1.trace_rb.readindex =
      (records.flatten).length := by
  obtain ⟨hA, hB⟩ := traceAppendMany_spec records
    { readindex := 0, writeindex := 0, size := 16384, mask := 16383 } m []
    rfl rfl rfl (by simpa using hbound) hrec
    (by intro p hp hp2; simp at hp)
  simp only [List.length_nil, Nat.zero_add, List.nil_append] at hA hB
  have hrb : (stateAfter records m).trace_rb =
      { readindex := 0, writeindex := (records.flatten).length,
        size := 16384, mask := 16383 } := by
    show (ringAfter records m).1 = _
    unfold ringAfter
    rw [hA]
  have hsz2 : (stateAfter records m).trace_rb.size = 16384 := by rw [hrb]
  have hm2 : (stateAfter records m).trace_rb.mask = 16383 := by rw [hrb]
  have hr02 : (stateAfter records m).trace_rb.readindex = 0 := by rw [hrb]
  have hw2 : (stateAfter records m).trace_rb.writeindex < 2147483648 := by
    rw [hrb]
    exact hbound
  have hov2 : 16384 < (stateAfter records m).trace_rb.writeindex := by
    rw [hrb]
    exact htot
  have hwT : (stateAfter records m).trace_rb.writeindex = (records.flatten).length := by
    rw [hrb]
  have hIter := drainIter_overflow _ hsz2 hm2 hr02 hw2 hov2
  have hpos : 0 < availOf (stateAfter records m).trace_rb := by
    rw [availOf_read_zero _ hr02 hw2, hwT]
    exact_mod_cast (show 0 < (records.flatten).length by omega)
  have hbounds1 : (stateAfter records m).trace_rb.readindex < u32Mod := by
    rw [hr02]
    unfold u32Mod
    omega
  have hbounds2 : (stateAfter records m).trace_rb.writeindex < u32Mod := by
    unfold u32Mod
    omega
  have hread := drainIter_readindex _ hbounds1 hbounds2 hpos
  have hzero : availOf (drainIter (stateAfter records m)).1.trace_rb = 0 :=
    availOf_eq_zero_of_eq _ (by rw [hread, drainIter_writeindex])
      (by rw [drainIter_writeindex]; exact hbounds2)
  rw [show (2 : Nat) = 1 + 1 from rfl]
  rw [drainLoop_succ_pos 1 _ hpos hzero]
  rw [hIter]
  simp only [hwT]
  refine ⟨rfl, ?_, ?_⟩
  · have hofflt : ((records.flatten).length - 16384) % 16384 < 16384 :=
      Nat.mod_lt _ (by norm_num)
    have hjoin := readChunk_join (stateAfter records m).trace_data
      (((records.flatten).length - 16384) % 16384) 16384 hofflt (le_refl _)
    have hcommon : (List.range 16384).map
        (fun i => (stateAfter records m).trace_data
          ((((records.flatten).length - 16384) % 16384 + i) % 16384)) =
        (records.flatten).drop ((records.flatten).length - 16384) := by
      have hstep2 : ∀ i ∈ List.range 16384,
          (stateAfter records m).trace_data
            ((((records.flatten).length - 16384) % 16384 + i) % 16384) =
          (records.flatten).getD ((records.flatten).length - 16384 + i)
            (Char.ofNat 0) := by
        intro i hi
        rw [List.mem_range] at hi
        have hmodeq : (((records.flatten).length - 16384) % 16384 + i) % 16384 =
            ((records.flatten).length - 16384 + i) % 16384 := by omega
        rw [hmodeq]
        exact hB ((records.flatten).length - 16384 + i) (by omega) (by omega)
      rw [List.map_congr_left hstep2]
      exact map_getD_range_eq_drop (records.flatten)
        ((records.flatten).length - 16384) 16384 (by omega)
    by_cases hfc : min 16384 (16384 - ((records.flatten).length - 16384) % 16384) < 16384
    · rw [if_pos hfc]
      simp only [traceBytes, List.append_nil]
      rw [hjoin]
      exact hcommon
    · rw [if_neg hfc]
      simp only [traceBytes, List.append_nil]
      have hmin : min 16384 (16384 - ((records.flatten).length - 16384) % 16384) =
          16384 := Nat.le_antisymm (Nat.min_le_left _ _) (Nat.le_of_not_lt hfc)
      rw [hmin] at hjoin
      rw [Nat.sub_self] at hjoin
      simp only [readChunk, List.range_zero, List.map_nil, List.append_nil] at hjoin
      rw [hmin]
      simp only [readChunk] at hjoin ⊢
      rw [hjoin]
      exact hcommon
  · simp only [spa_ringbuffer_read_update]
    have : (records.flatten).length % u32Mod = (records.flatten).length := by
      unfold u32Mod
      omega
    exact this

/-- Concrete record sequence overflowing the ring: 16384 + 1 bytes. -/
def records0 : List (List Char) := [List.replicate 16384 'a', ['b']]

/-- Concrete initial storage content for the witness. -/
def mem0 : Mem := fun _ => 'x'

theorem c2_overflow_drain_witness :
    (drainLoop 2 (stateAfter records0 mem0)).2.head? =
      some (TraceOut.overflowReport ((records0.flatten).length : Int)) ∧
    traceBytes (drainLoop 2 (stateAfter records0 mem0)).2 =
      (records0.flatten).drop ((records0.flatten).length - 16384) ∧
    (drainLoop 2 (stateAfter records0 mem0)).1.trace_rb.readindex =
      (records0.flatten).length :=
  c2_overflow_drain records0 mem0
    (by
      intro r hr
      simp only [records0, List.mem_cons, List.not_mem_nil, or_false] at hr
      rcases hr with rfl | rfl
      · rw [List.length_replicate]
      · simp only [List.length_cons, List.length_nil]
        omega)
    (by
      simp only [records0, List.flatten_cons, List.flatten_nil, List.append_nil,
        List.length_append, List.length_replicate, List.length_cons, List.length_nil]
      omega)
    (by
      simp only [records0, List.flatten_cons, List.flatten_nil, List.append_nil,
        List.length_append, List.length_replicate, List.length_cons, List.length_nil]
      omega)
